import Mathlib

/-
  Verification of the FSM console program (src/hw1/FSMDesign/FSM.cpp).

  The program reads a number of states and transitions, fills the array
  `states` with 0..n_states-1, reads the transitions into two parallel
  arrays `transitions_head` / `transitions_tail`, reads a starting state,
  and then runs an unbounded loop: print the current state, read a
  requested next state, and scan the transition arrays in stored order,
  acting on the first entry whose head equals the current state.

  Console output is modelled as a list of print events; each `cout <<`
  of a string literal becomes `OutEvent.text`, each `cout <<` of an
  integer becomes `OutEvent.num`.
-/

namespace FSM

/-- A single console print event: either a string literal or an integer. -/
inductive OutEvent where
  | text (s : String)
  | num (n : Int)
deriving DecidableEq

/-- The literal printed by the success branch (FSM.cpp line 50). -/
def successLine : String := "transition successful\n"

/-- The literal printed by the illegal-transition branch (FSM.cpp line 45). -/
def illegalLine : String := "illegal transition, not defined in transitions table\n"

/-- The inner for-loop of FSM.cpp (lines 41-54): scan the two parallel
transition arrays in stored order.  The first entry whose head equals
`current_state` decides: if its tail differs from `next_state` the illegal
message is printed and the scan breaks with the state unchanged; if its
tail equals `next_state` the success message is printed and the state
becomes `next_state`.  If no head matches, the loop runs to completion
printing nothing.  Returns the state after the scan and the print events
it emitted. -/
def scanStep : List Int → List Int → Int → Int → Int × List OutEvent
  | h :: hs, t :: ts, current_state, next_state =>
    if h = current_state ∧ t ≠ next_state then
      (current_state, [OutEvent.text illegalLine])
    else if h = current_state ∧ t = next_state then
      (next_state, [OutEvent.text successLine])
    else
      scanStep hs ts current_state next_state
  | _, _, current_state, _ => (current_state, [])

/-- The whole mutable state of the program after the definition phase:
the (unused, but present) `n_states` and `states` array, the two parallel
transition arrays, and the current state. -/
structure FSMState where
  n_states : Int
  states : List Int
  transitions_head : List Int
  transitions_tail : List Int
  current_state : Int
deriving DecidableEq

/-- The definition phase (FSM.cpp lines 7-29): record `n_states`, build
`states` as 0..n_states-1, store the transition pairs into the two
parallel arrays, and set the starting state (all unvalidated). -/
def loadDefinition (n_states : Nat) (transitions_head transitions_tail : List Int)
    (starting_state : Int) : FSMState :=
  { n_states := Int.ofNat n_states
    states := (List.range n_states).map Int.ofNat
    transitions_head := transitions_head
    transitions_tail := transitions_tail
    current_state := starting_state }

/-- One iteration of the `while (true)` body (FSM.cpp lines 35-54):
print "current state: ", the current state and a newline, print the
"next state: " prompt, read `next_state`, then run the scan.  Returns
the updated program state and the print events of the iteration. -/
def loopIter (s : FSMState) (next_state : Int) : FSMState × List OutEvent :=
  let r := scanStep s.transitions_head s.transitions_tail s.current_state next_state
  ({ s with current_state := r.1 },
   OutEvent.text "current state: " :: OutEvent.num s.current_state ::
     OutEvent.text "\n" :: OutEvent.text "next state: " :: r.2)

/-- The loop-control decision after one body execution: `while (true)`
contains no break, return or exit condition, so the body always hands
control back to another iteration (`some`); `none` (loop exit) is never
produced. -/
def loopStep (s : FSMState) (next_state : Int) : Option (FSMState × List OutEvent) :=
  some (loopIter s next_state)

/-- Run the loop over a finite prefix of the input stream, collecting all
print events. -/
def run : FSMState → List Int → FSMState × List OutEvent
  | s, [] => (s, [])
  | s, next_state :: rest =>
    let fst := loopIter s next_state
    let res := run fst.1 rest
    (res.1, fst.2 ++ res.2)

/-- The values of `current_state` observed after each successive loop
iteration. -/
def stateTrace : FSMState → List Int → List Int
  | _, [] => []
  | s, next_state :: rest =>
    ((loopIter s next_state).1).current_state :: stateTrace (loopIter s next_state).1 rest

/-- The program state reached after `n` iterations of the loop on an
infinite input stream. -/
def sessionState (s : FSMState) (inputs : Nat → Int) : Nat → FSMState
  | 0 => s
  | n + 1 => (loopIter (sessionState s inputs n) (inputs n)).1

theorem scanStep_out_cases (th tt : List Int) (cs ns : Int) :
    (scanStep th tt cs ns).2 = [] ∨
    (scanStep th tt cs ns).2 = [OutEvent.text successLine] ∨
    (scanStep th tt cs ns).2 = [OutEvent.text illegalLine] := by
  induction th generalizing tt with
  | nil => cases tt <;> simp [scanStep]
  | cons a as ih =>
    cases tt with
    | nil => simp [scanStep]
    | cons b bs =>
      by_cases h1 : a = cs ∧ b ≠ ns
      · simp [scanStep, h1]
      · by_cases h2 : a = cs ∧ b = ns
        · simp [scanStep, h1, h2]
        · simpa [scanStep, h1, h2] using ih bs

theorem scanStep_success_state (th tt : List Int) (cs ns : Int)
    (h : OutEvent.text successLine ∈ (scanStep th tt cs ns).2) :
    (scanStep th tt cs ns).1 = ns := by
  induction th generalizing tt with
  | nil => cases tt <;> simp [scanStep] at h
  | cons a as ih =>
    cases tt with
    | nil => simp [scanStep] at h
    | cons b bs =>
      by_cases h1 : a = cs ∧ b ≠ ns
      · simp [scanStep, h1, successLine, illegalLine] at h
      · by_cases h2 : a = cs ∧ b = ns
        · simp [scanStep, h1, h2]
        · simp only [scanStep, if_neg h1, if_neg h2] at h ⊢
          exact ih bs h

theorem scanStep_no_success_state (th tt : List Int) (cs ns : Int)
    (h : OutEvent.text successLine ∉ (scanStep th tt cs ns).2) :
    (scanStep th tt cs ns).1 = cs := by
  induction th generalizing tt with
  | nil => cases tt <;> simp [scanStep]
  | cons a as ih =>
    cases tt with
    | nil => simp [scanStep]
    | cons b bs =>
      by_cases h1 : a = cs ∧ b ≠ ns
      · simp [scanStep, h1]
      · by_cases h2 : a = cs ∧ b = ns
        · simp [scanStep, h1, h2] at h
        · simp only [scanStep, if_neg h1, if_neg h2] at h ⊢
          exact ih bs h

theorem scanStep_not_mem (th tt : List Int) (cs ns : Int) (h : cs ∉ th) :
    scanStep th tt cs ns = (cs, []) := by
  induction th generalizing tt with
  | nil => cases tt <;> rfl
  | cons a as ih =>
    cases tt with
    | nil => rfl
    | cons b bs =>
      have ha : ¬ a = cs := fun hh => h (by simp [hh])
      simp only [scanStep, ha, false_and, if_false]
      exact ih bs (fun hh => h (List.mem_cons_of_mem _ hh))

theorem scanStep_state_mem (th tt : List Int) (cs ns : Int) :
    (scanStep th tt cs ns).1 = cs ∨ (scanStep th tt cs ns).1 ∈ tt := by
  induction th generalizing tt with
  | nil => cases tt <;> simp [scanStep]
  | cons a as ih =>
    cases tt with
    | nil => simp [scanStep]
    | cons b bs =>
      by_cases h1 : a = cs ∧ b ≠ ns
      · simp [scanStep, h1]
      · by_cases h2 : a = cs ∧ b = ns
        · exact Or.inr (by simp [scanStep, h1, h2, h2.2])
        · simp only [scanStep, if_neg h1, if_neg h2]
          rcases ih bs with hc | hc
          · exact Or.inl hc
          · exact Or.inr (List.mem_cons_of_mem _ hc)

theorem scanStep_first_from (th2 tt2 : List Int) (cs t ns : Int)
    (hmis : t ≠ ns) :
    ∀ th1 tt1 : List Int, th1.length = tt1.length → cs ∉ th1 →
      scanStep (th1 ++ cs :: th2) (tt1 ++ t :: tt2) cs ns
        = (cs, [OutEvent.text illegalLine]) := by
  intro th1
  induction th1 with
  | nil =>
    intro tt1 hlen hpre
    have hnil : tt1 = [] := List.length_eq_zero.mp hlen.symm
    subst hnil
    simp [scanStep, hmis]
  | cons a as ih =>
    intro tt1 hlen hpre
    cases tt1 with
    | nil => simp at hlen
    | cons b bs =>
      have ha : ¬ a = cs := fun hh => hpre (by simp [hh])
      simp only [List.cons_append, scanStep, ha, false_and, if_false]
      exact ih bs (by simpa using hlen) (fun hh => hpre (List.mem_cons_of_mem _ hh))

theorem loopIter_preserves (s : FSMState) (ns : Int) :
    (loopIter s ns).1.n_states = s.n_states ∧
    (loopIter s ns).1.states = s.states ∧
    (loopIter s ns).1.transitions_head = s.transitions_head ∧
    (loopIter s ns).1.transitions_tail = s.transitions_tail := by
  simp [loopIter]

theorem loopIter_current (s : FSMState) (ns : Int) :
    (loopIter s ns).1.current_state
      = (scanStep s.transitions_head s.transitions_tail s.current_state ns).1 := rfl

/-- C1: In the executor loop, the scan examines transitions in stored order
and acts on the first entry whose from-component equals the current state:
if the head-list splits as `th1 ++ current_state :: th2` with no head equal
to `current_state` in `th1`, and the parallel tail entry `t` differs from
the requested `next_state`, then the iteration prints the illegal-transition
message and stops, leaving the state unchanged — even when a later entry
(index `j` of `th2`/`tt2`) has head `current_state` and tail `next_state`
(that valid entry is never reached). -/
theorem C1_first_match_decides (s : FSMState) (next_state t : Int)
    (th1 th2 tt1 tt2 : List Int)
    (hth : s.transitions_head = th1 ++ s.current_state :: th2)
    (htt : s.transitions_tail = tt1 ++ t :: tt2)
    (hlen : th1.length = tt1.length)
    (hpre : s.current_state ∉ th1)
    (hmis : t ≠ next_state)
    (j : Nat)
    (hlater : th2.getD j 0 = s.current_state ∧ tt2.getD j 0 = next_state) :
    (loopIter s next_state).2 =
      [OutEvent.text "current state: ", OutEvent.num s.current_state,
       OutEvent.text "\n", OutEvent.text "next state: ",
       OutEvent.text illegalLine] ∧
    (loopIter s next_state).1.current_state = s.current_state := by
  have hscan := scanStep_first_from th2 tt2 s.current_state t next_state hmis th1 tt1 hlen hpre
  rw [← hth, ← htt] at hscan
  exact ⟨by simp [loopIter, hscan], by simp [loopIter, hscan]⟩

theorem C1_first_match_decides_witness :
    ((1 : Int) ≠ 2 ∧
      ([0] : List Int).getD 0 0 = (loadDefinition 3 [0, 0] [1, 2] 0).current_state ∧
      ([2] : List Int).getD 0 0 = 2) ∧
    ((loopIter (loadDefinition 3 [0, 0] [1, 2] 0) 2).2 =
      [OutEvent.text "current state: ",
       OutEvent.num (loadDefinition 3 [0, 0] [1, 2] 0).current_state,
       OutEvent.text "\n", OutEvent.text "next state: ",
       OutEvent.text illegalLine] ∧
     (loopIter (loadDefinition 3 [0, 0] [1, 2] 0) 2).1.current_state =
       (loadDefinition 3 [0, 0] [1, 2] 0).current_state) :=
  ⟨by decide,
   C1_first_match_decides (loadDefinition 3 [0, 0] [1, 2] 0) 2 1 [] [0] [] [2]
     rfl rfl rfl (by decide) (by decide) 0 (by decide)⟩

/-- C2: In every loop iteration that reports "transition successful", the
current state at the end of the iteration equals exactly the requested
next state. -/
theorem C2_success_sets_state (s : FSMState) (next_state : Int)
    (h : OutEvent.text successLine ∈ (loopIter s next_state).2) :
    (loopIter s next_state).1.current_state = next_state := by
  have hm : OutEvent.text successLine ∈
      (scanStep s.transitions_head s.transitions_tail s.current_state next_state).2 := by
    simpa [loopIter, successLine] using h
  simpa [loopIter] using scanStep_success_state _ _ _ _ hm

theorem C2_success_sets_state_witness :
    OutEvent.text successLine ∈ (loopIter (loadDefinition 2 [0] [1] 0) 1).2 ∧
    (loopIter (loadDefinition 2 [0] [1] 0) 1).1.current_state = 1 :=
  ⟨by decide, C2_success_sets_state (loadDefinition 2 [0] [1] 0) 1 (by decide)⟩

/-- C3: If no stored transition has its from-component equal to the current
state, the loop iteration prints neither the success message nor the
illegal-transition message, and the current state is unchanged. -/
theorem C3_no_match_silent (s : FSMState) (next_state : Int)
    (h : s.current_state ∉ s.transitions_head) :
    OutEvent.text successLine ∉ (loopIter s next_state).2 ∧
    OutEvent.text illegalLine ∉ (loopIter s next_state).2 ∧
    (loopIter s next_state).1.current_state = s.current_state := by
  have hscan := scanStep_not_mem s.transitions_head s.transitions_tail s.current_state
    next_state h
  refine ⟨?_, ?_, ?_⟩ <;> simp [loopIter, hscan, successLine, illegalLine]

theorem C3_no_match_silent_witness :
    ((loadDefinition 2 [1] [0] 0).current_state ∉
      (loadDefinition 2 [1] [0] 0).transitions_head) ∧
    (OutEvent.text successLine ∉ (loopIter (loadDefinition 2 [1] [0] 0) 5).2 ∧
     OutEvent.text illegalLine ∉ (loopIter (loadDefinition 2 [1] [0] 0) 5).2 ∧
     (loopIter (loadDefinition 2 [1] [0] 0) 5).1.current_state =
       (loadDefinition 2 [1] [0] 0).current_state) :=
  ⟨by decide, C3_no_match_silent (loadDefinition 2 [1] [0] 0) 5 (by decide)⟩

/-- C4: The current state is mutated only by a successful transition: in
every loop iteration that does not print the success message (illegal
transition or silent no-op), the current state at the end of the iteration
equals its value at the start. -/
theorem C4_state_only_on_success (s : FSMState) (next_state : Int)
    (h : OutEvent.text successLine ∉ (loopIter s next_state).2) :
    (loopIter s next_state).1.current_state = s.current_state := by
  have hm : OutEvent.text successLine ∉
      (scanStep s.transitions_head s.transitions_tail s.current_state next_state).2 := by
    intro hc
    have hmem : OutEvent.text successLine ∈ (loopIter s next_state).2 :=
      List.mem_cons_of_mem _ (List.mem_cons_of_mem _
        (List.mem_cons_of_mem _ (List.mem_cons_of_mem _ hc)))
    exact h hmem
  simpa [loopIter] using scanStep_no_success_state _ _ _ _ hm

theorem C4_state_only_on_success_witness :
    (OutEvent.text successLine ∉ (loopIter (loadDefinition 3 [0, 0] [1, 2] 0) 5).2) ∧
    (loopIter (loadDefinition 3 [0, 0] [1, 2] 0) 5).1.current_state =
      (loadDefinition 3 [0, 0] [1, 2] 0).current_state :=
  ⟨by decide, C4_state_only_on_success (loadDefinition 3 [0, 0] [1, 2] 0) 5 (by decide)⟩

theorem stateTrace_bounds (inputs : List Int) :
    ∀ s : FSMState,
      0 ≤ s.current_state ∧ s.current_state < s.n_states →
      (∀ t ∈ s.transitions_tail, 0 ≤ t ∧ t < s.n_states) →
      ∀ x ∈ stateTrace s inputs, 0 ≤ x ∧ x < s.n_states := by
  induction inputs with
  | nil =>
    intro s _ _ x hx
    simp [stateTrace] at hx
  | cons ns rest ih =>
    intro s hcur htails x hx
    have hns : (loopIter s ns).1.n_states = s.n_states := (loopIter_preserves s ns).1
    have htt : (loopIter s ns).1.transitions_tail = s.transitions_tail :=
      (loopIter_preserves s ns).2.2.2
    have hcur' : 0 ≤ (loopIter s ns).1.current_state ∧
        (loopIter s ns).1.current_state < s.n_states := by
      rw [loopIter_current]
      rcases scanStep_state_mem s.transitions_head s.transitions_tail s.current_state ns
        with hc | hc
      · rw [hc]; exact hcur
      · exact htails _ hc
    rcases List.mem_cons.mp hx with hx | hx
    · rw [hx]; exact hcur'
    · have := ih (loopIter s ns).1 (by rw [hns]; exact hcur')
        (by rw [htt, hns]; exact htails) x hx
      rw [hns] at this
      exact this

/-- C5 counterexample: the claim "current_state always lies in
[0, n_states)" fails: with 2 states, the single transition (0, 5) and
starting state 0, requesting next state 5 succeeds and drives
current_state to 5, outside [0, 2) — the loader and executor never
validate identifiers against n_states. -/
theorem C5_counterexample :
    ¬ (∀ x ∈ (loadDefinition 2 [0] [5] 0).current_state ::
          stateTrace (loadDefinition 2 [0] [5] 0) [5],
        0 ≤ x ∧ x < (loadDefinition 2 [0] [5] 0).n_states) := by
  decide

/-- C5 (amended): if the starting state lies in [0, n_states) and every
stored to-component lies in [0, n_states), then at every point of the
session (the starting state and the state after each iteration)
current_state lies in [0, n_states). -/
theorem C5_amended_bounds (s : FSMState) (inputs : List Int)
    (hcur : 0 ≤ s.current_state ∧ s.current_state < s.n_states)
    (htails : ∀ t ∈ s.transitions_tail, 0 ≤ t ∧ t < s.n_states) :
    ∀ x ∈ s.current_state :: stateTrace s inputs, 0 ≤ x ∧ x < s.n_states := by
  intro x hx
  rcases List.mem_cons.mp hx with hx | hx
  · rw [hx]; exact hcur
  · exact stateTrace_bounds inputs s hcur htails x hx

theorem C5_amended_bounds_witness :
    ((0 : Int) ≤ (loadDefinition 2 [0, 1] [1, 0] 0).current_state ∧
      (loadDefinition 2 [0, 1] [1, 0] 0).current_state <
        (loadDefinition 2 [0, 1] [1, 0] 0).n_states) ∧
    (∀ x ∈ (loadDefinition 2 [0, 1] [1, 0] 0).current_state ::
        stateTrace (loadDefinition 2 [0, 1] [1, 0] 0) [1, 0],
      0 ≤ x ∧ x < (loadDefinition 2 [0, 1] [1, 0] 0).n_states) :=
  ⟨by decide,
   C5_amended_bounds (loadDefinition 2 [0, 1] [1, 0] 0) [1, 0] (by decide) (by decide)⟩

/-- C6: Transitions are immutable after load: the stored from-list and
to-list are unchanged by any single loop iteration and by any finite
sequence of iterations of the executor loop. -/
theorem C6_transitions_immutable (s : FSMState) (inputs : List Int) :
    (run s inputs).1.transitions_head = s.transitions_head ∧
    (run s inputs).1.transitions_tail = s.transitions_tail ∧
    ∀ ns : Int, (loopIter s ns).1.transitions_head = s.transitions_head ∧
      (loopIter s ns).1.transitions_tail = s.transitions_tail := by
  refine ⟨?_, ?_, fun ns => ⟨(loopIter_preserves s ns).2.2.1, (loopIter_preserves s ns).2.2.2⟩⟩
  all_goals induction inputs generalizing s with
  | nil => simp [run]
  | cons ns rest ih =>
    simp only [run]
    rw [ih (loopIter s ns).1]
    first
    | exact (loopIter_preserves s ns).2.2.1
    | exact (loopIter_preserves s ns).2.2.2

/-- C7: For the table with transitions (0,1), (1,2) in that order and
starting state 0: requesting 1 prints "transition successful" and sets the
current state to 1; requesting 2 from state 0 prints the illegal-transition
message and leaves the current state at 0. -/
theorem C7_concrete_example :
    (OutEvent.text successLine ∈ (loopIter (loadDefinition 3 [0, 1] [1, 2] 0) 1).2 ∧
      (loopIter (loadDefinition 3 [0, 1] [1, 2] 0) 1).1.current_state = 1) ∧
    (OutEvent.text illegalLine ∈ (loopIter (loadDefinition 3 [0, 1] [1, 2] 0) 2).2 ∧
      (loopIter (loadDefinition 3 [0, 1] [1, 2] 0) 2).1.current_state = 0) := by
  decide

/-- C8: Every loop iteration first prints "current state: " followed by the
current state and a newline, then prompts "next state: ", and then emits
exactly one of the success message, the illegal-transition message, or
nothing — never more than one status message per iteration. -/
theorem C8_iteration_output_shape (s : FSMState) (next_state : Int) :
    ∃ rest,
      (loopIter s next_state).2 =
        OutEvent.text "current state: " :: OutEvent.num s.current_state ::
          OutEvent.text "\n" :: OutEvent.text "next state: " :: rest ∧
      (rest = [] ∨ rest = [OutEvent.text successLine] ∨
        rest = [OutEvent.text illegalLine]) :=
  ⟨(scanStep s.transitions_head s.transitions_tail s.current_state next_state).2,
    rfl, scanStep_out_cases _ _ _ _⟩

/-- C9: The executor loop never terminates: after every iteration the
`while (true)` control transfers to a next iteration (the loop-control
decision is always `some`, never an exit), for every program state,
every input stream, and every iteration index. -/
theorem C9_loop_never_exits (s : FSMState) (inputs : Nat → Int) (n : Nat) :
    (loopStep (sessionState s inputs n) (inputs n)).isSome = true ∧
    sessionState s inputs (n + 1) = (loopIter (sessionState s inputs n) (inputs n)).1 :=
  ⟨rfl, rfl⟩

theorem run_congr (inputs : List Int) :
    ∀ s₁ s₂ : FSMState,
      s₁.transitions_head = s₂.transitions_head →
      s₁.transitions_tail = s₂.transitions_tail →
      s₁.current_state = s₂.current_state →
      (run s₁ inputs).2 = (run s₂ inputs).2 ∧
      stateTrace s₁ inputs = stateTrace s₂ inputs := by
  induction inputs with
  | nil => exact fun s₁ s₂ _ _ _ => ⟨rfl, rfl⟩
  | cons ns rest ih =>
    intro s₁ s₂ hth htt hcs
    have hout : (loopIter s₁ ns).2 = (loopIter s₂ ns).2 := by
      simp [loopIter, hth, htt, hcs]
    have h1 : (loopIter s₁ ns).1.transitions_head = (loopIter s₂ ns).1.transitions_head := by
      simp [loopIter, hth]
    have h2 : (loopIter s₁ ns).1.transitions_tail = (loopIter s₂ ns).1.transitions_tail := by
      simp [loopIter, htt]
    have hc : (loopIter s₁ ns).1.current_state = (loopIter s₂ ns).1.current_state := by
      simp [loopIter, hth, htt, hcs]
    obtain ⟨ho, ht⟩ := ih (loopIter s₁ ns).1 (loopIter s₂ ns).1 h1 h2 hc
    constructor
    · simp only [run]
      rw [hout, ho]
    · simp only [stateTrace]
      rw [hc, ht]

/-- C10: Observable behavior after the definition phase is independent of
n_states: two runs that load different n_states values but identical
transition lists, starting state, and request sequence produce identical
print events and identical current-state evolution (the states array built
from n_states is written but never read). -/
theorem C10_independent_of_n_states (n₁ n₂ : Nat) (th tt : List Int)
    (start : Int) (inputs : List Int) :
    (run (loadDefinition n₁ th tt start) inputs).2 =
      (run (loadDefinition n₂ th tt start) inputs).2 ∧
    stateTrace (loadDefinition n₁ th tt start) inputs =
      stateTrace (loadDefinition n₂ th tt start) inputs :=
  run_congr inputs _ _ rfl rfl rfl

end FSM
